import Mathlib

/-!
Shallow embedding of the MyCoin ledger (src/app.py) and verification of the
frozen claims about it.

Modelling conventions, chosen to stay faithful to the Python source:
* Python `float` arithmetic on amounts/balances is modelled with `Rat`
  (the amounts handled by the program are short fixed-point decimals, on
  which Python float arithmetic agrees with exact rational arithmetic).
* A transaction's `amount` field is kept as the pair of (a) the exact JSON
  token that `json.dumps` emits for the stored Python value (`raw`) and
  (b) the result of `float(amount)` (`parsed`, `none` when `float` raises).
  The source only ever serializes the raw value or converts it via `float`.
* A block's `timestamp` is a Python float used only as a JSON token inside
  the hashed payload; it is modelled as that token string.
* `hashlib.sha256` is implemented concretely below (`sha256hex`); the
  ledger operations are parameterized by the digest function `digest` so
  that generic theorems quantify over it and concrete ones instantiate it
  with `sha256hex`.
* The external `ecdsa` library (`VerifyingKey.from_string`, `vk.verify`)
  is modelled as an abstract oracle `ECDSA`: `fromBytesOk` says whether
  key decoding succeeds, `verify` whether `vk.verify` returns normally.
-/

namespace MyCoin

set_option maxRecDepth 100000

/-- 32-bit truncation, `x % 2^32`. -/
def w32 (x : Nat) : Nat := x % 4294967296

/-- Rotate a 32-bit word right by `n`. -/
def rotr (n x : Nat) : Nat := w32 ((x >>> n) ||| (x <<< (32 - n)))

def smallSigma0 (x : Nat) : Nat := (rotr 7 x) ^^^ (rotr 18 x) ^^^ (x >>> 3)

def smallSigma1 (x : Nat) : Nat := (rotr 17 x) ^^^ (rotr 19 x) ^^^ (x >>> 10)

def bigSigma0 (x : Nat) : Nat := (rotr 2 x) ^^^ (rotr 13 x) ^^^ (rotr 22 x)

def bigSigma1 (x : Nat) : Nat := (rotr 6 x) ^^^ (rotr 11 x) ^^^ (rotr 25 x)

/-- SHA-256 round constants (FIPS 180-4), written in decimal. -/
def sha256K : List Nat :=
  [1116352408, 1899447441, 3049323471, 3921009573, 961987163,
   1508970993, 2453635748, 2870763221, 3624381080, 310598401,
   607225278, 1426881987, 1925078388, 2162078206, 2614888103,
   3248222580, 3835390401, 4022224774, 264347078, 604807628,
   770255983, 1249150122, 1555081692, 1996064986, 2554220882,
   2821834349, 2952996808, 3210313671, 3336571891, 3584528711,
   113926993, 338241895, 666307205, 773529912, 1294757372,
   1396182291, 1695183700, 1986661051, 2177026350, 2456956037,
   2730485921, 2820302411, 3259730800, 3345764771, 3516065817,
   3600352804, 4094571909, 275423344, 430227734, 506948616,
   659060556, 883997877, 958139571, 1322822218, 1537002063,
   1747873779, 1955562222, 2024104815, 2227730452, 2361852424,
   2428436474, 2756734187, 3204031479, 3329325298]

/-- SHA-256 initial state (FIPS 180-4), written in decimal. -/
def sha256Init : List Nat :=
  [1779033703, 3144134277, 1013904242, 2773480762, 1359893119,
   2600822924, 528734635, 1541459225]

/-- Big-endian byte rendering of `x` on `n` bytes. -/
def bytesBE : Nat → Nat → List Nat
  | 0, _ => []
  | n + 1, x => bytesBE n (x / 256) ++ [x % 256]

/-- SHA-256 padding: append 0x80, zero bytes, and the 64-bit bit length. -/
def sha256pad (msg : List Nat) : List Nat :=
  msg ++ [0x80] ++ List.replicate ((119 - msg.length % 64) % 64) 0 ++ bytesBE 8 (8 * msg.length)

/-- Group bytes into 32-bit big-endian words. -/
def wordsOfBytes : List Nat → List Nat
  | a :: b :: c :: d :: rest => (((a * 256 + b) * 256 + c) * 256 + d) :: wordsOfBytes rest
  | _ => []

/-- One message-schedule extension step: append `w[i]` computed from the tail. -/
def scheduleStep (w : List Nat) : List Nat :=
  let i := w.length
  w ++ [w32 (smallSigma1 (w.getD (i - 2) 0) + w.getD (i - 7) 0 +
             smallSigma0 (w.getD (i - 15) 0) + w.getD (i - 16) 0)]

/-- Iterate the schedule extension. -/
def schedule : Nat → List Nat → List Nat
  | 0, w => w
  | n + 1, w => schedule n (scheduleStep w)

/-- One SHA-256 compression round on the 8-word state. -/
def compressRound (st : List Nat) (k wi : Nat) : List Nat :=
  match st with
  | [a, b, c, d, e, f, g, h] =>
    let ch := (e &&& f) ^^^ ((e ^^^ 4294967295) &&& g)
    let maj := (a &&& b) ^^^ (a &&& c) ^^^ (b &&& c)
    let t1 := w32 (h + bigSigma1 e + ch + k + wi)
    let t2 := w32 (bigSigma0 a + maj)
    [w32 (t1 + t2), a, b, c, w32 (d + t1), e, f, g]
  | other => other

/-- Compress one 16-word block into the running hash state. -/
def compressBlock (h : List Nat) (blockWords : List Nat) : List Nat :=
  let w := schedule 48 blockWords
  let st := (List.zip sha256K w).foldl (fun st p => compressRound st p.1 p.2) h
  (List.zip h st).map (fun p => w32 (p.1 + p.2))

/-- Split a byte list into 64-byte chunks (fuel-based so it reduces in the
kernel; each step consumes at least one byte, so `l.length` fuel suffices). -/
def chunksGo : Nat → List Nat → List (List Nat)
  | 0, _ => []
  | _, [] => []
  | n + 1, l => l.take 64 :: chunksGo n (l.drop 64)

/-- Split a byte list into 64-byte chunks. -/
def chunks64 (l : List Nat) : List (List Nat) := chunksGo l.length l

/-- SHA-256 of a byte list, as the final 8-word state. -/
def sha256words (msg : List Nat) : List Nat :=
  (chunks64 (sha256pad msg)).foldl (fun h blk => compressBlock h (wordsOfBytes blk)) sha256Init

/-- Lowercase hex digit. -/
def hexChar (n : Nat) : Char := if n < 10 then Char.ofNat (48 + n) else Char.ofNat (87 + n)

/-- Render a 32-bit word as 8 lowercase hex characters. -/
def toHex8 (x : Nat) : String :=
  String.mk ([7, 6, 5, 4, 3, 2, 1, 0].map (fun i => hexChar ((x >>> (4 * i)) &&& 15)))

/-- Bytes of an ASCII string (the hashed payloads are pure ASCII, so UTF-8
bytes coincide with code points). -/
def strBytes (s : String) : List Nat := s.data.map Char.toNat

/-- Model of `hashlib.sha256(s.encode()).hexdigest()`. -/
def sha256hex (s : String) : String :=
  String.join ((sha256words (strBytes s)).map toHex8)

example : sha256hex "abc" = "ba7816bf8f01cfea414140de5dae2223b00361a396177a9cb410ff61f20015ad" := by decide

/-- Amount field of a transaction: `raw` is the exact JSON token that
`json.dumps` emits for the stored Python value (including the quotes when
the value is a `str`); `parsed` is the result of `float(raw)`, `none` when
`float` raises. -/
structure Amount where
  raw : String
  parsed : Option Rat
deriving Repr, DecidableEq, Inhabited

/-- Transaction record of `app.py` (`Transaction.__init__`); fields may be
absent (`None` in Python) since peers build them with `dict.get`. -/
structure Transaction where
  sender : Option String
  recipient : Option String
  amount : Amount
  signature : Option String
deriving Repr, DecidableEq, Inhabited

/-- Block record of `app.py` (`Block.__init__`); `timestamp` is the JSON
number token of the creation-time float, the only use the source makes of it. -/
structure Block where
  timestamp : String
  transactions : List Transaction
  previous_hash : String
  nonce : Nat
  hash : String
deriving Repr, DecidableEq, Inhabited

/-- Ledger state of `app.py` (`Blockchain.__init__`). -/
structure Blockchain where
  chain : List Block
  difficulty : Nat
  pending_transactions : List Transaction
  mining_reward : Rat
deriving Repr, DecidableEq, Inhabited

/-- JSON string escaping for the characters that can occur in the program's
payloads (addresses, hex digests, decimal strings are plain printable ASCII;
only the quote and backslash need escaping there, as `json.dumps` does). -/
def jsonEscapeChar (c : Char) : String :=
  if c = '"' then "\\\"" else if c = '\\' then "\\\\" else String.mk [c]

/-- JSON rendering of a string value. -/
def jsonStr (s : String) : String :=
  "\"" ++ String.join (s.data.map jsonEscapeChar) ++ "\""

/-- JSON rendering of an optional string (`None` becomes `null`). -/
def jsonOptStr : Option String → String
  | none => "null"
  | some s => jsonStr s

/-- JSON object emitted for `tx.to_dict()` by
`json.dumps(..., sort_keys=True)`: keys in sorted order
`amount, recipient, sender, signature` with default separators. Note the
signature IS part of this representation (`Transaction.to_dict` keeps it). -/
def txJson (tx : Transaction) : String :=
  "\x7b\"amount\": " ++ tx.amount.raw ++ ", \"recipient\": " ++ jsonOptStr tx.recipient ++
    ", \"sender\": " ++ jsonOptStr tx.sender ++ ", \"signature\": " ++ jsonOptStr tx.signature ++ "\x7d"

/-- Comma-space separated join, as `json.dumps` renders list elements. -/
def joinSep : List String → String
  | [] => ""
  | [s] => s
  | s :: rest => s ++ ", " ++ joinSep rest

/-- The exact payload string `Block.calculate_hash` feeds to sha256:
`json.dumps({timestamp, transactions, previous_hash, nonce}, sort_keys=True)`,
keys in sorted order `nonce, previous_hash, timestamp, transactions`. -/
def payloadOf (timestamp : String) (txs : List Transaction) (previous_hash : String)
    (nonce : Nat) : String :=
  "\x7b\"nonce\": " ++ Nat.repr nonce ++ ", \"previous_hash\": " ++ jsonStr previous_hash ++
    ", \"timestamp\": " ++ timestamp ++ ", \"transactions\": [" ++
    joinSep (txs.map txJson) ++ "]\x7d"

/-- Model of `Block.calculate_hash`, parameterized by the digest function
(`sha256hex` in the running program). -/
def Block.calculate_hash (digest : String → String) (b : Block) : String :=
  digest (payloadOf b.timestamp b.transactions b.previous_hash b.nonce)

/-- Model of `Block.__init__`: nonce 0, hash computed from the fields. -/
def Block.new (digest : String → String) (timestamp : String) (transactions : List Transaction)
    (previous_hash : String) : Block :=
  let b : Block := { timestamp := timestamp, transactions := transactions,
                     previous_hash := previous_hash, nonce := 0, hash := "" }
  { b with hash := Block.calculate_hash digest b }

/-- Test `h[:d] == "0" * d` from `Block.mine_block`. -/
def hasDifficultyZeros (d : Nat) (h : String) : Bool :=
  h.data.take d == List.replicate d '0'

/-- Model of `Block.mine_block`: increment the nonce and recompute the hash
until the difficulty prefix holds. The Python loop is unbounded; `fuel`
bounds the number of iterations, `none` meaning the bound was exhausted. -/
def Block.mine_block (digest : String → String) (d : Nat) : Nat → Block → Option Block
  | fuel, b =>
    if hasDifficultyZeros d b.hash then some b
    else
      match fuel with
      | 0 => none
      | f + 1 =>
        let b1 : Block := { b with nonce := b.nonce + 1 }
        Block.mine_block digest d f { b1 with hash := Block.calculate_hash digest b1 }

/-- Model of `Blockchain.create_genesis_block`. -/
def create_genesis_block (digest : String → String) (ts : String) : Block :=
  Block.new digest ts [] "0"

/-- Model of `Blockchain.__init__`. -/
def Blockchain.init (digest : String → String) (ts : String) : Blockchain :=
  { chain := [create_genesis_block digest ts], difficulty := 3,
    pending_transactions := [], mining_reward := 10 }

/-- One transaction's effect on the running balance in `get_balance`:
falsy (`None`) sender/recipient count as `""`, unparseable amounts as `0.0`,
comparisons after `.lower()`. -/
def txBalanceStep (addr : String) (bal : Rat) (tx : Transaction) : Rat :=
  let s := (tx.sender.getD "").toLower
  let r := (tx.recipient.getD "").toLower
  let amt := tx.amount.parsed.getD 0
  let bal1 := if s = addr then bal - amt else bal
  if r = addr then bal1 + amt else bal1

/-- Model of `Blockchain.get_balance`: 0 for a falsy address, otherwise the
nested replay over chain blocks then in-block transactions. -/
def Blockchain.get_balance (bc : Blockchain) (address : Option String) : Rat :=
  match address with
  | none => 0
  | some a =>
    if a = "" then 0
    else bc.chain.foldl (fun bal blk => blk.transactions.foldl (txBalanceStep a.toLower) bal) 0

/-- Abstract model of the external `ecdsa` library: `fromBytesOk bs` says
whether `VerifyingKey.from_string(bs, curve=SECP256k1)` succeeds, and
`verify pub sig msg` whether `vk.verify(sig, msg)` returns normally (both a
`BadSignatureError` and any other exception make `verify_transaction`
return `False`, so one boolean captures the observable outcome). -/
structure ECDSA where
  fromBytesOk : List Nat → Bool
  verify : List Nat → List Nat → List Nat → Bool

/-- Value of a single hex digit, upper or lower case as `bytes.fromhex`
accepts. -/
def hexDigitVal (c : Char) : Option Nat :=
  if '0' ≤ c ∧ c ≤ '9' then some (c.toNat - 48)
  else if 'a' ≤ c ∧ c ≤ 'f' then some (c.toNat - 87)
  else if 'A' ≤ c ∧ c ≤ 'F' then some (c.toNat - 55)
  else none

/-- Decode a list of hex digits two at a time. -/
def hexPairs : List Char → Option (List Nat)
  | [] => some []
  | [_] => none
  | a :: b :: rest =>
    match hexDigitVal a, hexDigitVal b, hexPairs rest with
    | some x, some y, some l => some ((16 * x + y) :: l)
    | _, _, _ => none

/-- Model of `bytes.fromhex` on whitespace-free input (the program only
feeds it hex-encoded keys and signatures). -/
def hexDecode (s : String) : Option (List Nat) := hexPairs s.data

/-- Round a rational to the nearest integer, ties to even, as Python float
formatting rounds. -/
def roundHalfEven (q : Rat) : Int :=
  let f := q.floor
  let r := q - f
  if r < 1 / 2 then f else if r > 1 / 2 then f + 1 else if f % 2 = 0 then f else f + 1

/-- Numerator of the 8-decimal fixed-point rendering of `q`. -/
def fix8 (q : Rat) : Int := roundHalfEven (q * 100000000)

/-- The 8-decimal value `float(f"{q:.8f}")` parses back to. -/
def fix8rat (q : Rat) : Rat := (fix8 q : Rat) / 100000000

/-- Zero-pad a numeral to 8 digits. -/
def pad8 (n : Nat) : String :=
  let s := Nat.repr n
  String.mk (List.replicate (8 - s.length) '0') ++ s

/-- Model of Python `f"{q:.8f}"` on the exactly-representable values the
program handles: optional sign, integer digits, dot, 8 fractional digits. -/
def format8 (q : Rat) : String :=
  let n := fix8 q
  let a := n.natAbs
  (if n < 0 then "-" else "") ++ Nat.repr (a / 100000000) ++ "." ++ pad8 (a % 100000000)

/-- How an f-string renders a possibly-`None` value. -/
def pyStrOpt : Option String → String
  | none => "None"
  | some s => s

/-- The signing message `f"{tx.sender}->{tx.recipient}:{float(tx.amount):.8f}"`
of `verify_transaction`. -/
def signing_message (sender : String) (recipient : Option String) (q : Rat) : String :=
  sender ++ "->" ++ pyStrOpt recipient ++ ":" ++ format8 q

/-- Model of `pub_hex.startswith("04")`. -/
def startsWith04 (s : String) : Bool := s.data.take 2 == ['0', '4']

/-- Model of `pub_hex[2:]`. -/
def dropTwo (s : String) : String := String.mk (s.data.drop 2)

/-- Python falsiness of an optional string (`None` or `""`). -/
def pyFalsyStr : Option String → Bool
  | none => true
  | some s => s == ""

/-- Model of `Blockchain.verify_transaction`: `"system"` is always valid;
otherwise the signature and sender must be truthy, the sender hex (with a
leading `"04"` stripped) must decode to a valid public key, the amount must
convert by `float`, the signature must decode from hex, and the ECDSA check
must pass; every failure mode yields `False`. -/
def verify_transaction (E : ECDSA) (tx : Transaction) : Bool :=
  if tx.sender = some "system" then true
  else if pyFalsyStr tx.signature || pyFalsyStr tx.sender then false
  else
    match tx.sender, tx.signature with
    | some s, some sig =>
      let pubHexForVk := if startsWith04 s then dropTwo s else s
      match hexDecode pubHexForVk with
      | none => false
      | some pubBytes =>
        if E.fromBytesOk pubBytes then
          match tx.amount.parsed with
          | none => false
          | some q =>
            match hexDecode sig with
            | none => false
            | some sigBytes =>
              E.verify pubBytes sigBytes (strBytes (signing_message s tx.recipient q))
        else false
    | _, _ => false

/-- Model of `Blockchain.create_transaction`: verify the signature, then for
non-`"system"` senders convert the amount by `float` and check solvency, and
on success append the transaction to the pending pool; returns the success
flag and the (possibly updated) ledger state. -/
def create_transaction (E : ECDSA) (bc : Blockchain) (tx : Transaction) : Bool × Blockchain :=
  if ¬ verify_transaction E tx then (false, bc)
  else if tx.sender ≠ some "system" then
    match tx.amount.parsed with
    | none => (false, bc)
    | some amt =>
      if bc.get_balance tx.sender < amt then (false, bc)
      else (true, { bc with pending_transactions := bc.pending_transactions ++ [tx] })
  else (true, { bc with pending_transactions := bc.pending_transactions ++ [tx] })

/-- The reward transaction `Transaction("system", miner_address,
f"{self.mining_reward:.8f}", None)` built by `mine_pending_transactions`:
its stored amount is the 8-decimal string, which `float` parses back to the
8-decimal fixed-point value. -/
def reward_tx_of (reward : Rat) (miner_address : String) : Transaction :=
  { sender := some "system", recipient := some miner_address,
    amount := { raw := jsonStr (format8 reward), parsed := some (fix8rat reward) },
    signature := none }

/-- Model of `Blockchain.mine_pending_transactions`: build the reward
transaction, seal `pending + [reward]` on top of the latest block, append
the mined block and clear the pool. `ts` is the new block's creation time
and `fuel` bounds the nonce search; `none` models a non-terminating search
(or the `chain[-1]` IndexError on an empty chain, unreachable from init). -/
def mine_pending_transactions (digest : String → String) (fuel : Nat) (bc : Blockchain)
    (miner_address : String) (ts : String) : Option (Block × Blockchain) :=
  match bc.chain.getLast? with
  | none => none
  | some latest =>
    match Block.mine_block digest bc.difficulty fuel
        (Block.new digest ts
          (bc.pending_transactions ++ [reward_tx_of bc.mining_reward miner_address])
          latest.hash) with
    | none => none
    | some blk =>
      some (blk, { bc with chain := bc.chain ++ [blk], pending_transactions := [] })

/-- Ledger states reachable from a fresh `Blockchain()` by any sequence of
`create_transaction` and (successful) `mine_pending_transactions` calls. -/
inductive Reachable (digest : String → String) (E : ECDSA) : Blockchain → Prop where
  | init (ts : String) : Reachable digest E (Blockchain.init digest ts)
  | submit (bc : Blockchain) (tx : Transaction) : Reachable digest E bc →
      Reachable digest E (create_transaction E bc tx).2
  | mine (bc : Blockchain) (miner ts : String) (fuel : Nat) (blk : Block) (bc' : Blockchain) :
      Reachable digest E bc →
      mine_pending_transactions digest fuel bc miner ts = some (blk, bc') →
      Reachable digest E bc'

example : (Blockchain.init sha256hex "1700000000.0").chain.map Block.hash =
    ["366281d14d3554ea3c99a6970879df662c888a29f99a8470fa20d91658a3e2cc"] := by decide

/-- Pessimistic ECDSA oracle: every key decode and every verification fails. -/
def noECDSA : ECDSA := { fromBytesOk := fun _ => false, verify := fun _ _ _ => false }

/-- JSON token of the creation time used for the concrete genesis block. -/
def ts0 : String := "1700000000.0"

/-- Creation time whose candidate block on top of the concrete genesis already
meets difficulty 3 at nonce 0 (found by searching timestamps offline). -/
def ts1 : String := "1700003896.0"

/-- The concrete fresh ledger `Blockchain()`. -/
def bc0 : Blockchain := Blockchain.init sha256hex ts0

/-- A reward-forging transaction as any external caller or peer can submit it. -/
def sysTx : Transaction :=
  { sender := some "system", recipient := some "attacker",
    amount := { raw := jsonStr "999.00000000", parsed := some 999 }, signature := none }

/-- C1: the spec requires that a transaction with the reserved sender
`"system"` coming from an external caller or peer be rejected by
`create_transaction` and never enqueued; the code instead accepts it
unconditionally (no signature, no balance check) and appends it to the
pending pool, as this evaluation of `create_transaction` at a forged
system transaction shows. -/
theorem c1_system_sender_accepted :
    create_transaction noECDSA bc0 sysTx =
      (true, { bc0 with pending_transactions := [sysTx] }) := by
  with_unfolding_all decide

/-- A system-sender transaction carrying a negative amount. -/
def negSysTx : Transaction :=
  { sender := some "system", recipient := some "b",
    amount := { raw := jsonStr "-5.00000000", parsed := some (-5) }, signature := none }

/-- A transaction whose amount does not convert by `float`. -/
def badAmtTx : Transaction :=
  { sender := some "a", recipient := some "b",
    amount := { raw := jsonStr "xyz", parsed := none }, signature := some "00" }

/-- C2 counterexample: `create_transaction` accepts and enqueues a
transaction whose (parseable) amount is negative — the claimed
`InvalidAmount` rejection of negative amounts does not exist in the code
(here through the unguarded `"system"` sender path, which skips the amount
conversion entirely). -/
theorem c2_cex_negative_amount_enqueued :
    negSysTx.amount.parsed = some (-5) ∧ (-5 : Rat) < 0 ∧
    create_transaction noECDSA bc0 negSysTx =
      (true, { bc0 with pending_transactions := [negSysTx] }) := by
  refine ⟨rfl, by with_unfolding_all decide, ?_⟩
  with_unfolding_all decide

/-- C2 (amended): for a non-`"system"` sender, if the amount does not
convert by `float`, `create_transaction` rejects the transaction and leaves
the ledger unchanged; no non-negativity or 8-decimal-precision check is
performed anywhere. -/
theorem c2_unparseable_amount_rejected (E : ECDSA) (bc : Blockchain) (tx : Transaction)
    (hs : tx.sender ≠ some "system") (ha : tx.amount.parsed = none) :
    create_transaction E bc tx = (false, bc) := by
  unfold create_transaction
  by_cases hv : verify_transaction E tx
  · simp [hv, hs, ha]
  · simp [hv]

/-- C2 witness: the amended rejection at a concrete unparseable-amount
transaction. -/
theorem c2_unparseable_amount_rejected_witness :
    badAmtTx.sender ≠ some "system" ∧ badAmtTx.amount.parsed = none ∧
    create_transaction noECDSA bc0 badAmtTx = (false, bc0) :=
  ⟨by decide, rfl, c2_unparseable_amount_rejected noECDSA bc0 badAmtTx (by decide) rfl⟩

/-- C6: `create_transaction` is atomic: on failure the returned ledger state
is exactly the input state (pending pool and chain untouched), and on
success it is the input state with the submitted transaction appended at
the end of the pending pool (chain untouched). -/
theorem c6_submit_atomicity (E : ECDSA) (bc : Blockchain) (tx : Transaction) (ok : Bool)
    (bc' : Blockchain) (h : create_transaction E bc tx = (ok, bc')) :
    (ok = false → bc' = bc) ∧
    (ok = true →
      bc' = { bc with pending_transactions := bc.pending_transactions ++ [tx] }) := by
  unfold create_transaction at h
  split at h
  · cases h.symm
    exact ⟨fun _ => rfl, by simp⟩
  · split at h
    · split at h
      · cases h.symm
        exact ⟨fun _ => rfl, by simp⟩
      · split at h
        · cases h.symm
          exact ⟨fun _ => rfl, by simp⟩
        · cases h.symm
          exact ⟨by simp, fun _ => rfl⟩
    · cases h.symm
      exact ⟨by simp, fun _ => rfl⟩

/-- C6 witness: atomicity applied at a concrete rejected transaction. -/
theorem c6_submit_atomicity_witness :
    (create_transaction noECDSA bc0 badAmtTx).2 = bc0 :=
  (c6_submit_atomicity noECDSA bc0 badAmtTx
      (create_transaction noECDSA bc0 badAmtTx).1
      (create_transaction noECDSA bc0 badAmtTx).2 rfl).1
    (by with_unfolding_all decide)

/-- Cancel a common prefix and suffix of a string concatenation. -/
theorem string_append_cancel (p s x y : String) (h : p ++ x ++ s = p ++ y ++ s) : x = y := by
  apply String.ext
  have hd := congrArg String.data h
  simp only [String.data_append, List.append_assoc] at hd
  exact List.append_cancel_right (List.append_cancel_left hd)

/-- Everything of a single-transaction block's hashed payload that precedes
the signature token. -/
def payloadPre (ts prev : String) (n : Nat) (tx : Transaction) : String :=
  "\x7b\"nonce\": " ++ Nat.repr n ++ ", \"previous_hash\": " ++ jsonStr prev ++
    ", \"timestamp\": " ++ ts ++ ", \"transactions\": [" ++
    "\x7b\"amount\": " ++ tx.amount.raw ++ ", \"recipient\": " ++ jsonOptStr tx.recipient ++
    ", \"sender\": " ++ jsonOptStr tx.sender ++ ", \"signature\": "

/-- The hashed payload of a single-transaction block factors around the
signature token. -/
theorem payload_factor (ts prev : String) (n : Nat) (tx : Transaction) (s : Option String) :
    payloadOf ts [{ tx with signature := s }] prev n =
      payloadPre ts prev n tx ++ jsonOptStr s ++ "\x7d]\x7d" := by
  apply String.ext
  simp [payloadOf, txJson, joinSep, payloadPre, String.data_append, List.append_assoc]

/-- A plain signed-nowhere transaction for the hashing counterexample. -/
def txPlain : Transaction :=
  { sender := some "a", recipient := some "b",
    amount := { raw := jsonStr "1.00000000", parsed := some 1 }, signature := none }

/-- Concrete block containing `txPlain` with no signature. -/
def blockSigA : Block :=
  { timestamp := ts0, transactions := [txPlain], previous_hash := "0", nonce := 0, hash := "" }

/-- The same block except that the transaction carries signature `"ab"`. -/
def blockSigB : Block :=
  { timestamp := ts0, transactions := [{ txPlain with signature := some "ab" }],
    previous_hash := "0", nonce := 0, hash := "" }

/-- C3 counterexample: two blocks whose fields agree everywhere except in one
contained transaction's signature, yet `calculate_hash` yields different
digests — `Transaction.to_dict` keeps the signature, so the claim that the
block hash ignores signatures is false. -/
theorem c3_cex_signature_changes_hash :
    blockSigA.timestamp = blockSigB.timestamp ∧
    blockSigA.previous_hash = blockSigB.previous_hash ∧
    blockSigA.nonce = blockSigB.nonce ∧
    blockSigA.transactions.map Transaction.sender = blockSigB.transactions.map Transaction.sender ∧
    blockSigA.transactions.map Transaction.recipient =
      blockSigB.transactions.map Transaction.recipient ∧
    blockSigA.transactions.map Transaction.amount = blockSigB.transactions.map Transaction.amount ∧
    Block.calculate_hash sha256hex blockSigA ≠ Block.calculate_hash sha256hex blockSigB := by
  refine ⟨rfl, rfl, rfl, rfl, rfl, rfl, ?_⟩
  with_unfolding_all decide

/-- C3 (amended): the block hashing representation includes each
transaction's signature: whenever two signature values serialize to
different JSON tokens, the hashed payloads of otherwise-identical
single-transaction blocks differ; and at the concrete block pair the
sha256 digests differ as well. -/
theorem c3_hash_depends_on_signature :
    (∀ (ts prev : String) (n : Nat) (tx : Transaction) (s1 s2 : Option String),
      jsonOptStr s1 ≠ jsonOptStr s2 →
      payloadOf ts [{ tx with signature := s1 }] prev n ≠
        payloadOf ts [{ tx with signature := s2 }] prev n) ∧
    Block.calculate_hash sha256hex blockSigA ≠ Block.calculate_hash sha256hex blockSigB := by
  constructor
  · intro ts prev n tx s1 s2 h he
    rw [payload_factor, payload_factor] at he
    exact h (string_append_cancel _ _ _ _ he)
  · with_unfolding_all decide

/-- C3 witness: the amended payload-difference statement at concrete inputs. -/
theorem c3_hash_depends_on_signature_witness :
    payloadOf ts0 [{ txPlain with signature := none }] "0" 0 ≠
      payloadOf ts0 [{ txPlain with signature := some "ab" }] "0" 0 :=
  c3_hash_depends_on_signature.1 ts0 "0" 0 txPlain none (some "ab") (by decide)

/-- Data of a `"04"`-prefixed string. -/
theorem data_04_append (r : String) : ("04" ++ r).data = '0' :: '4' :: r.data := by
  have h : ("04" : String).data = ['0', '4'] := rfl
  simp [String.data_append, h]

/-- Stripping the `"04"` prefix recovers the raw key hex. -/
theorem dropTwo_append04 (r : String) : dropTwo ("04" ++ r) = r := by
  apply String.ext
  simp [dropTwo, data_04_append]

/-- A `"04"`-prefixed string is detected by `startswith("04")`. -/
theorem startsWith04_append04 (r : String) : startsWith04 ("04" ++ r) = true := by
  simp [startsWith04, data_04_append]

/-- A `"04"`-prefixed string is not the reserved sender `"system"`. -/
theorem append04_ne_system (r : String) : ("04" ++ r) ≠ "system" := by
  intro h
  have hd := congrArg String.data h
  rw [data_04_append] at hd
  have hs : ("system" : String).data = ['s', 'y', 's', 't', 'e', 'm'] := rfl
  rw [hs] at hd
  injection hd with h1 _
  exact absurd h1 (by decide)

/-- A `"04"`-prefixed string is truthy. -/
theorem append04_ne_empty (r : String) : ("04" ++ r) ≠ "" := by
  intro h
  have hd := congrArg String.data h
  rw [data_04_append] at hd
  exact absurd hd (by simp)

/-- Evaluation of `verify_transaction` on a well-formed non-`"system"`
transaction: the outcome is exactly the ECDSA library's verdict on the
decoded key, decoded signature, and canonical signing message. -/
theorem verify_transaction_eval (E : ECDSA) (s : String) (rec : Option String) (a : Amount)
    (sigHex : String) (q : Rat) (pub sigB : List Nat)
    (hsys : s ≠ "system") (hne : s ≠ "")
    (hdec : hexDecode (if startsWith04 s then dropTwo s else s) = some pub)
    (hok : E.fromBytesOk pub = true) (hq : a.parsed = some q)
    (hsig : hexDecode sigHex = some sigB) (hsne : sigHex ≠ "") :
    verify_transaction E ⟨some s, rec, a, some sigHex⟩ =
      E.verify pub sigB (strBytes (signing_message s rec q)) := by
  unfold verify_transaction
  simp only [Option.some.injEq]
  rw [if_neg hsys]
  have hf1 : pyFalsyStr (some sigHex) = false := by
    simp [pyFalsyStr, hsne]
  have hf2 : pyFalsyStr (some s) = false := by
    simp [pyFalsyStr, hne]
  rw [hf1, hf2]
  simp only [Bool.or_self, Bool.false_or, if_false, Bool.false_eq_true]
  rw [hdec]
  simp [hok, hq, hsig]

/-- C9 (amended): for a non-`"system"` sender whose raw key hex does not
itself begin with `"04"`, the validator accepts both the raw hex-encoded
public key and its `"04"`-prefixed form — when the ECDSA check of the
decoded key over the canonical signing message
(`sender ++ "->" ++ recipient ++ ":" ++ amount` at 8 fractional digits)
succeeds, `verify_transaction` returns true for either sender encoding —
and it returns false when the signature is absent or does not verify.
(The restriction is necessary: the code strips a leading `"04"`
unconditionally, so a raw key hex beginning `"04"` decodes to the wrong
bytes and is rejected even when correctly signed — see the
counterexample.) -/
theorem c9_verify_encodings (E : ECDSA) (r : String) (rec : Option String) (a : Amount)
    (sigHex : String) (q : Rat) (pub sigB : List Nat)
    (h04 : startsWith04 r = false) (hsys : r ≠ "system") (hne : r ≠ "")
    (hpub : hexDecode r = some pub) (hok : E.fromBytesOk pub = true)
    (hq : a.parsed = some q) (hsig : hexDecode sigHex = some sigB) (hsne : sigHex ≠ "") :
    (E.verify pub sigB (strBytes (signing_message r rec q)) = true →
      verify_transaction E ⟨some r, rec, a, some sigHex⟩ = true) ∧
    (E.verify pub sigB (strBytes (signing_message ("04" ++ r) rec q)) = true →
      verify_transaction E ⟨some ("04" ++ r), rec, a, some sigHex⟩ = true) ∧
    verify_transaction E ⟨some r, rec, a, none⟩ = false ∧
    (E.verify pub sigB (strBytes (signing_message r rec q)) = false →
      verify_transaction E ⟨some r, rec, a, some sigHex⟩ = false) := by
  have hraw := verify_transaction_eval E r rec a sigHex q pub sigB hsys hne
    (by rw [if_neg (by simp [h04])]; exact hpub) hok hq hsig hsne
  have hpre := verify_transaction_eval E ("04" ++ r) rec a sigHex q pub sigB
    (append04_ne_system r) (append04_ne_empty r)
    (by rw [if_pos (by simp [startsWith04_append04]), dropTwo_append04]; exact hpub)
    hok hq hsig hsne
  refine ⟨fun hv => by rw [hraw, hv], fun hv => by rw [hpre, hv], ?_, fun hv => by rw [hraw, hv]⟩
  unfold verify_transaction
  rw [if_neg (by simp [hsys])]
  simp [pyFalsyStr]

/-- An ECDSA oracle accepting exactly the byte key `[171]` and any
signature equal to `[16]`. -/
def oracle1 : ECDSA := { fromBytesOk := fun b => b == [171], verify := fun _ s _ => s == [16] }

/-- An ECDSA oracle whose only valid public key has the bytes `[4, 171]` —
raw hex encoding `"04ab"`, which itself begins with `"04"` — and which
accepts every signature over every message for that key. -/
def oracle04 : ECDSA := { fromBytesOk := fun b => b == [4, 171], verify := fun _ _ _ => true }

/-- C9 counterexample: the claim quantifies over any key pair, but a raw
public key whose hex encoding itself begins with `"04"` refutes it: for the
key with bytes `[4, 171]` (raw hex `"04ab"`), under an oracle that decodes
exactly that key and verifies every signature — in particular the attached
signature verifies over the canonical signing message built from the raw
sender encoding — `verify_transaction` still rejects the raw encoding
(the code strips the leading `"04"`, decodes the wrong bytes `[171]`, and
key decoding fails), while accepting the `"04"`-prefixed encoding
`"0404ab"` of the same key. -/
theorem c9_cex_raw_key_starting_04 :
    hexDecode "04ab" = some [4, 171] ∧
    oracle04.fromBytesOk [4, 171] = true ∧
    oracle04.verify [4, 171] [16] (strBytes (signing_message "04ab" (some "b") 1)) = true ∧
    verify_transaction oracle04 ⟨some "04ab", some "b", txPlain.amount, some "10"⟩ = false ∧
    verify_transaction oracle04 ⟨some ("04" ++ "04ab"), some "b", txPlain.amount, some "10"⟩ =
      true := by
  refine ⟨by decide, by decide, by decide, ?_, ?_⟩ <;> with_unfolding_all decide

/-- C9 witness: the amended statement at a concrete oracle, transaction and
signature — both sender encodings of the key `"ab"` (whose hex does not
begin `"04"`) are accepted. -/
theorem c9_verify_encodings_witness :
    verify_transaction oracle1 ⟨some "ab", some "b", txPlain.amount, some "10"⟩ = true ∧
    verify_transaction oracle1 ⟨some ("04" ++ "ab"), some "b", txPlain.amount, some "10"⟩ = true := by
  have h := c9_verify_encodings oracle1 "ab" (some "b") txPlain.amount "10" 1 [171] [16]
    (by decide) (by decide) (by decide) (by decide) (by decide) rfl (by decide) (by decide)
  exact ⟨h.1 (by with_unfolding_all decide), h.2.1 (by with_unfolding_all decide)⟩

/-- A freshly constructed block's stored hash is the digest of its fields. -/
theorem Block.new_hash_eq (digest : String → String) (ts : String) (txs : List Transaction)
    (prev : String) :
    (Block.new digest ts txs prev).hash =
      Block.calculate_hash digest (Block.new digest ts txs prev) := rfl

/-- What a successful `mine_block` guarantees: the returned block meets the
difficulty target, its stored hash is the digest of its current fields, and
the fields other than `nonce`/`hash` are untouched. -/
theorem mine_block_spec (digest : String → String) (d : Nat) :
    ∀ (fuel : Nat) (b b' : Block), Block.mine_block digest d fuel b = some b' →
      b.hash = Block.calculate_hash digest b →
      b'.hash.data.take d = List.replicate d '0' ∧
      b'.hash = Block.calculate_hash digest b' ∧
      b'.previous_hash = b.previous_hash ∧ b'.transactions = b.transactions ∧
      b'.timestamp = b.timestamp := by
  intro fuel
  induction fuel with
  | zero =>
    intro b b' h hinv
    unfold Block.mine_block at h
    split at h
    · next hz =>
      cases h
      refine ⟨?_, hinv, rfl, rfl, rfl⟩
      simpa [hasDifficultyZeros] using hz
    · exact absurd h (by simp)
  | succ f ih =>
    intro b b' h hinv
    unfold Block.mine_block at h
    split at h
    · next hz =>
      cases h
      refine ⟨?_, hinv, rfl, rfl, rfl⟩
      simpa [hasDifficultyZeros] using hz
    · dsimp only at h
      have hres := ih _ b' h rfl
      exact hres

/-- What a successful `mine_pending_transactions` returns: the new state's
chain is the old chain with the mined block appended, the mined block links
to the previous tip, the pool is cleared, the mined block's transactions are
the pool plus the reward transaction, and the scalar fields persist. -/
theorem mine_pending_result (digest : String → String) (fuel : Nat) (bc : Blockchain)
    (miner ts : String) (blk : Block) (bc' : Blockchain)
    (h : mine_pending_transactions digest fuel bc miner ts = some (blk, bc')) :
    bc'.chain = bc.chain ++ [blk] ∧
    (∀ last, bc.chain.getLast? = some last → blk.previous_hash = last.hash) ∧
    bc'.pending_transactions = [] ∧
    blk.transactions = bc.pending_transactions ++ [reward_tx_of bc.mining_reward miner] ∧
    blk.hash.data.take bc.difficulty = List.replicate bc.difficulty '0' ∧
    blk.hash = Block.calculate_hash digest blk ∧
    bc'.difficulty = bc.difficulty ∧ bc'.mining_reward = bc.mining_reward := by
  unfold mine_pending_transactions at h
  cases hl : bc.chain.getLast? with
  | none => rw [hl] at h; exact absurd h (by simp)
  | some latest =>
    rw [hl] at h
    dsimp only at h
    cases hm : Block.mine_block digest bc.difficulty fuel
        (Block.new digest ts (bc.pending_transactions ++ [reward_tx_of bc.mining_reward miner])
          latest.hash) with
    | none => rw [hm] at h; exact absurd h (by simp)
    | some b2 =>
      rw [hm] at h
      dsimp only at h
      rw [Option.some.injEq, Prod.mk.injEq] at h
      obtain ⟨rfl, rfl⟩ := h
      obtain ⟨hz, hh, hprev, htxs, hts⟩ := mine_block_spec digest bc.difficulty fuel
        (Block.new digest ts (bc.pending_transactions ++ [reward_tx_of bc.mining_reward miner])
          latest.hash)
        b2 hm (Block.new_hash_eq digest ts _ latest.hash)
      refine ⟨rfl, ?_, rfl, htxs, hz, hh, rfl, rfl⟩
      intro last hlast
      cases hlast
      exact hprev

/-- C4: every block returned by `mine_pending_transactions` satisfies the
proof-of-work postcondition: its hash has at least `difficulty` leading
`'0'` hex characters and equals the recomputed digest of the block's
current fields. -/
theorem c4_mine_postcondition (digest : String → String) (fuel : Nat) (bc : Blockchain)
    (miner ts : String) (blk : Block) (bc' : Blockchain)
    (h : mine_pending_transactions digest fuel bc miner ts = some (blk, bc')) :
    blk.hash.data.take bc.difficulty = List.replicate bc.difficulty '0' ∧
    blk.hash = Block.calculate_hash digest blk := by
  obtain ⟨-, -, -, -, hz, hh, -, -⟩ := mine_pending_result digest fuel bc miner ts blk bc' h
  exact ⟨hz, hh⟩

/-- The concrete mining call on the fresh ledger at creation time `ts1`,
whose candidate block meets difficulty 3 already at nonce 0. -/
def minedPair : Option (Block × Blockchain) := mine_pending_transactions sha256hex 0 bc0 "m" ts1

/-- The concrete mined block. -/
def minedBlk : Block := (minedPair.getD default).1

/-- The concrete two-block ledger state after mining. -/
def minedState : Blockchain := (minedPair.getD default).2

/-- The concrete mining call succeeds and returns exactly the pair above. -/
theorem minedPair_eq : minedPair = some (minedBlk, minedState) := by
  with_unfolding_all rfl

/-- C4 witness: the proof-of-work postcondition at the concrete mined block. -/
theorem c4_mine_postcondition_witness :
    minedBlk.hash.data.take 3 = List.replicate 3 '0' ∧
    minedBlk.hash = Block.calculate_hash sha256hex minedBlk :=
  c4_mine_postcondition sha256hex 0 bc0 "m" ts1 minedBlk minedState minedPair_eq

/-- `create_transaction` never touches the chain. -/
theorem create_transaction_chain (E : ECDSA) (bc : Blockchain) (tx : Transaction) :
    (create_transaction E bc tx).2.chain = bc.chain := by
  unfold create_transaction
  repeat' split
  all_goals rfl

/-- Hash-linkage of consecutive blocks, defined structurally along the chain. -/
def Linked : List Block → Prop
  | [] => True
  | [_] => True
  | a :: b :: rest => b.previous_hash = a.hash ∧ Linked (b :: rest)

/-- Index form of `Linked`. -/
theorem linked_get : ∀ (l : List Block), Linked l → ∀ (i : Nat) (h : i + 1 < l.length),
    (l.get ⟨i + 1, h⟩).previous_hash = (l.get ⟨i, Nat.lt_of_succ_lt h⟩).hash
  | [], _, _, h => absurd h (by simp)
  | [_], _, _, h => absurd h (by simp)
  | _ :: _ :: _, hl, 0, _ => hl.1
  | _ :: b :: rest, hl, i + 1, h => linked_get (b :: rest) hl.2 i (Nat.lt_of_succ_lt_succ h)

/-- `Linked` is preserved by appending a block that links to the tip. -/
theorem linked_append (b : Block) : ∀ (l : List Block), Linked l →
    (∀ last, l.getLast? = some last → b.previous_hash = last.hash) → Linked (l ++ [b])
  | [], _, _ => trivial
  | [a], _, hlast => ⟨hlast a rfl, trivial⟩
  | a :: c :: rest, hl, hlast =>
    ⟨hl.1, linked_append b (c :: rest) hl.2
      (fun last h => hlast last (by rw [List.getLast?_cons_cons]; exact h))⟩

/-- C5: in every ledger state reachable from the genesis state by any
sequence of `create_transaction` and `mine_pending_transactions` calls, the
chain is non-empty, the genesis block has previousHash `"0"` and no
transactions, and every later block's previousHash equals its
predecessor's hash. -/
theorem c5_chain_invariants (digest : String → String) (E : ECDSA) (bc : Blockchain)
    (h : Reachable digest E bc) :
    bc.chain ≠ [] ∧
    (∀ g, bc.chain.head? = some g → g.previous_hash = "0" ∧ g.transactions = []) ∧
    (∀ (i : Nat) (hi : i + 1 < bc.chain.length),
      (bc.chain.get ⟨i + 1, hi⟩).previous_hash =
        (bc.chain.get ⟨i, Nat.lt_of_succ_lt hi⟩).hash) := by
  have key : bc.chain ≠ [] ∧
      (∀ g, bc.chain.head? = some g → g.previous_hash = "0" ∧ g.transactions = []) ∧
      Linked bc.chain := by
    induction h with
    | init ts =>
      refine ⟨by simp [Blockchain.init], ?_, trivial⟩
      intro g hg
      have hgg : create_genesis_block digest ts = g := by
        simpa [Blockchain.init] using hg
      rw [← hgg]
      exact ⟨rfl, rfl⟩
    | submit bc tx hr ih =>
      simpa only [create_transaction_chain] using ih
    | mine bc miner ts fuel blk bc' hr hm ih =>
      obtain ⟨hchain, hlink, hpool, htxs, hz, hh, hdiff, hrew⟩ :=
        mine_pending_result digest fuel bc miner ts blk bc' hm
      obtain ⟨hne, hhead, hlinked⟩ := ih
      refine ⟨?_, ?_, ?_⟩
      · rw [hchain]; simp
      · intro g hg
        rw [hchain] at hg
        cases hc : bc.chain with
        | nil => exact absurd hc hne
        | cons a t =>
          rw [hc] at hg
          simp only [List.cons_append, List.head?_cons, Option.some.injEq] at hg
          apply hhead
          rw [hc]
          simp only [List.head?_cons, Option.some.injEq]
          exact hg
      · rw [hchain]
        exact linked_append blk bc.chain hlinked hlink
  exact ⟨key.1, key.2.1, linked_get bc.chain key.2.2⟩

/-- C5 witness: the invariants at the (reachable) fresh ledger. -/
theorem c5_chain_invariants_witness :
    bc0.chain ≠ [] ∧
    (∀ g, bc0.chain.head? = some g → g.previous_hash = "0" ∧ g.transactions = []) ∧
    (∀ (i : Nat) (hi : i + 1 < bc0.chain.length),
      (bc0.chain.get ⟨i + 1, hi⟩).previous_hash =
        (bc0.chain.get ⟨i, Nat.lt_of_succ_lt hi⟩).hash) :=
  c5_chain_invariants sha256hex noECDSA bc0 (Reachable.init ts0)

/-- Flattened transaction list of a chain, in chain-then-in-block order. -/
def chainTxs (c : List Block) : List Transaction := c.flatMap fun b => b.transactions

/-- The nested per-block folds of `get_balance` equal one fold over the
flattened transaction list. -/
theorem get_balance_flatten (addr : String) (c : List Block) : ∀ x : Rat,
    c.foldl (fun bal blk => blk.transactions.foldl (txBalanceStep addr) bal) x =
      (chainTxs c).foldl (txBalanceStep addr) x := by
  induction c with
  | nil => intro x; rfl
  | cons b t ih =>
    intro x
    simp only [chainTxs, List.flatMap_cons, List.foldl_append, List.foldl_cons]
    exact ih _

/-- Modelled from the spec (§4.4 BalanceIndex): replay every transaction of
every block of the chain, in chain then in-block order; subtract the amount
when the sender matches the queried address and add it when the recipient
matches, comparing case-insensitively on both sides; an empty or absent
address yields balance 0 without error. Absent fields compare as `""` and
unparseable amounts count as 0, as in the source. -/
def balanceOfSpec (chain : List Block) (address : Option String) : Rat :=
  match address with
  | none => 0
  | some a =>
    if a = "" then 0
    else (chainTxs chain).foldl (txBalanceStep a.toLower) 0

/-- C7: `get_balance` equals the spec's replay of every chain transaction in
chain-then-in-block order with case-insensitive matching, an empty or
absent address yields 0 without error, and the result is a pure function of
the chain — pending transactions never affect it. -/
theorem c7_balance_replay (bc : Blockchain) (address : Option String) :
    bc.get_balance address = balanceOfSpec bc.chain address ∧
    bc.get_balance none = 0 ∧ bc.get_balance (some "") = 0 ∧
    (∀ bc2 : Blockchain, bc2.chain = bc.chain →
      bc2.get_balance address = bc.get_balance address) := by
  refine ⟨?_, rfl, rfl, ?_⟩
  · cases address with
    | none => rfl
    | some a =>
      by_cases ha : a = ""
      · subst ha; rfl
      · simp only [Blockchain.get_balance, balanceOfSpec, if_neg ha]
        exact get_balance_flatten a.toLower bc.chain 0
  · intro bc2 h2
    cases address with
    | none => rfl
    | some a =>
      simp only [Blockchain.get_balance, h2]

/-- C7 witness: the balance is unchanged when only the pending pool differs. -/
theorem c7_balance_replay_witness :
    ({ bc0 with pending_transactions := [sysTx] } : Blockchain).get_balance (some "m") =
      bc0.get_balance (some "m") :=
  (c7_balance_replay bc0 (some "m")).2.2.2 { bc0 with pending_transactions := [sysTx] } rfl

/-- A transaction whose amount does not convert by `float` leaves the
running balance unchanged. -/
theorem txBalanceStep_unparseable (addr : String) (bal : Rat) (tx : Transaction)
    (h : tx.amount.parsed = none) : txBalanceStep addr bal tx = bal := by
  unfold txBalanceStep
  rw [h]
  simp

/-- Dropping unparseable-amount transactions does not change the fold. -/
theorem foldl_filter_parseable (addr : String) (l : List Transaction) : ∀ x : Rat,
    (l.filter fun tx => tx.amount.parsed.isSome).foldl (txBalanceStep addr) x =
      l.foldl (txBalanceStep addr) x := by
  induction l with
  | nil => intro x; rfl
  | cons tx t ih =>
    intro x
    rw [List.filter_cons]
    cases hp : tx.amount.parsed with
    | none =>
      simp only [hp, Option.isSome_none, Bool.false_eq_true, if_false, List.foldl_cons,
        txBalanceStep_unparseable addr x tx hp]
      exact ih x
    | some q =>
      simp only [hp, Option.isSome_some, if_true, List.foldl_cons]
      exact ih _

/-- Drop every chain transaction whose amount fails to convert by `float`. -/
def dropUnparseable (c : List Block) : List Block :=
  c.map fun b =>
    { b with transactions := b.transactions.filter fun tx => tx.amount.parsed.isSome }

/-- Replace absent (None) sender/recipient fields by the empty string, the
value `get_balance` substitutes for them. -/
def fillTx (tx : Transaction) : Transaction :=
  { tx with sender := some (tx.sender.getD ""), recipient := some (tx.recipient.getD "") }

/-- Replace absent sender/recipient fields throughout a chain. -/
def fillNoneFields (c : List Block) : List Block :=
  c.map fun b => { b with transactions := b.transactions.map fillTx }

/-- Flattening commutes with the unparseable-amount filter. -/
theorem chainTxs_dropUnparseable (c : List Block) :
    chainTxs (dropUnparseable c) = (chainTxs c).filter fun tx => tx.amount.parsed.isSome := by
  induction c with
  | nil => rfl
  | cons b t ih =>
    simp only [chainTxs, dropUnparseable, List.map_cons, List.flatMap_cons, List.filter_append]
    simp only [chainTxs, dropUnparseable] at ih
    rw [ih]

/-- Flattening commutes with the None-field filling. -/
theorem chainTxs_fillNone (c : List Block) :
    chainTxs (fillNoneFields c) = (chainTxs c).map fillTx := by
  induction c with
  | nil => rfl
  | cons b t ih =>
    simp only [chainTxs, fillNoneFields, List.map_cons, List.flatMap_cons, List.map_append]
    simp only [chainTxs, fillNoneFields] at ih
    rw [ih]

/-- Filling absent fields does not change the fold. -/
theorem foldl_fillTx (addr : String) (l : List Transaction) : ∀ x : Rat,
    (l.map fillTx).foldl (txBalanceStep addr) x = l.foldl (txBalanceStep addr) x := by
  induction l with
  | nil => intro x; rfl
  | cons tx t ih =>
    intro x
    rw [List.map_cons, List.foldl_cons, List.foldl_cons]
    have hstep : txBalanceStep addr x (fillTx tx) = txBalanceStep addr x tx := rfl
    rw [hstep]
    exact ih _

/-- C10: `get_balance` is total on the embedding and tolerant of malformed
chain data: transactions whose amount does not convert by `float` contribute
nothing to any balance (removing them changes no result), and absent (None)
sender/recipient fields are handled as the empty string (filling them in
changes no result) — no input raises an error. -/
theorem c10_get_balance_total (bc : Blockchain) (address : Option String) :
    bc.get_balance address =
      Blockchain.get_balance { bc with chain := dropUnparseable bc.chain } address ∧
    bc.get_balance address =
      Blockchain.get_balance { bc with chain := fillNoneFields bc.chain } address := by
  cases address with
  | none => exact ⟨rfl, rfl⟩
  | some a =>
    by_cases ha : a = ""
    · subst ha; exact ⟨rfl, rfl⟩
    · constructor
      · simp only [Blockchain.get_balance, if_neg ha]
        rw [get_balance_flatten, get_balance_flatten, chainTxs_dropUnparseable,
          foldl_filter_parseable]
      · simp only [Blockchain.get_balance, if_neg ha]
        rw [get_balance_flatten, get_balance_flatten, chainTxs_fillNone, foldl_fillTx]

/-- Signed contribution of one transaction to the balance of the lowered
address `addr`, as `get_balance` applies it. -/
def contrib (addr : String) (tx : Transaction) : Rat :=
  (if (tx.sender.getD "").toLower = addr then -(tx.amount.parsed.getD 0) else 0) +
    (if (tx.recipient.getD "").toLower = addr then tx.amount.parsed.getD 0 else 0)

/-- One balance step adds the transaction's signed contribution. -/
theorem txBalanceStep_eq (addr : String) (bal : Rat) (tx : Transaction) :
    txBalanceStep addr bal tx = bal + contrib addr tx := by
  by_cases hs : (tx.sender.getD "").toLower = addr <;>
    by_cases hr : (tx.recipient.getD "").toLower = addr <;>
      simp [txBalanceStep, contrib, hs, hr] <;> ring

/-- Folding balance steps from `x` accumulates the sum of contributions. -/
theorem foldl_step_sum (addr : String) (l : List Transaction) : ∀ x : Rat,
    l.foldl (txBalanceStep addr) x = x + (l.map fun t => contrib addr t).sum := by
  induction l with
  | nil => intro x; simp
  | cons tx t ih =>
    intro x
    rw [List.foldl_cons, ih, txBalanceStep_eq, List.map_cons, List.sum_cons, add_assoc]

/-- `get_balance` at a truthy address is the sum of contributions. -/
theorem get_balance_sum (bc : Blockchain) (a : String) (ha : a ≠ "") :
    bc.get_balance (some a) = ((chainTxs bc.chain).map fun t => contrib a.toLower t).sum := by
  simp only [Blockchain.get_balance, if_neg ha]
  rw [get_balance_flatten, foldl_step_sum, zero_add]

/-- All addresses literally appearing as a sender or recipient of a chain
transaction, deduplicated. -/
def touchedAddresses (c : List Block) : List String :=
  ((chainTxs c).flatMap fun tx => tx.sender.toList ++ tx.recipient.toList).dedup

/-- Sum of the reported balances over all touched addresses. -/
def touchedSum (bc : Blockchain) : Rat :=
  ((touchedAddresses bc.chain).map fun a => bc.get_balance (some a)).sum

/-- A present sender appears among the touched addresses. -/
theorem sender_mem_touched (c : List Block) (tx : Transaction) (htx : tx ∈ chainTxs c)
    (s : String) (hs : tx.sender = some s) : s ∈ touchedAddresses c := by
  unfold touchedAddresses
  rw [List.mem_dedup, List.mem_flatMap]
  exact ⟨tx, htx, by simp [hs]⟩

/-- A present recipient appears among the touched addresses. -/
theorem recipient_mem_touched (c : List Block) (tx : Transaction) (htx : tx ∈ chainTxs c)
    (r : String) (hr : tx.recipient = some r) : r ∈ touchedAddresses c := by
  unfold touchedAddresses
  rw [List.mem_dedup, List.mem_flatMap]
  exact ⟨tx, htx, by simp [hr]⟩

/-- When no chain transaction stores an empty sender or recipient, every
touched address is a nonempty string. -/
theorem touched_ne_empty (c : List Block)
    (hfe : ∀ tx ∈ chainTxs c, tx.sender ≠ some "" ∧ tx.recipient ≠ some "") :
    ∀ a ∈ touchedAddresses c, a ≠ "" := by
  intro a ha
  unfold touchedAddresses at ha
  rw [List.mem_dedup, List.mem_flatMap] at ha
  obtain ⟨tx, htx, hmem⟩ := ha
  rw [List.mem_append] at hmem
  intro hae
  subst hae
  cases hmem with
  | inl h =>
    cases hsend : tx.sender with
    | none => rw [hsend] at h; cases h
    | some s =>
      rw [hsend] at h
      simp only [Option.toList_some, List.mem_singleton] at h
      subst h
      exact (hfe tx htx).1 hsend
  | inr h =>
    cases hrec : tx.recipient with
    | none => rw [hrec] at h; cases h
    | some r =>
      rw [hrec] at h
      simp only [Option.toList_some, List.mem_singleton] at h
      subst h
      exact (hfe tx htx).2 hrec

/-- Sum over a duplicate-free list in which exactly one element matches the
lowered string `σ` case-insensitively. -/
theorem sum_ite_unique (c : Rat) (σ : String) : ∀ (l : List String), l.Nodup → σ ∈ l →
    (∀ a ∈ l, a.toLower = σ.toLower → a = σ) →
    (l.map fun a => if σ.toLower = a.toLower then c else 0).sum = c := by
  intro l
  induction l with
  | nil => intro _ hm _; cases hm
  | cons b t ih =>
    intro hnd hm huniq
    rw [List.map_cons, List.sum_cons]
    by_cases hb : b = σ
    · subst hb
      rw [if_pos rfl]
      have hz : (t.map fun a => if b.toLower = a.toLower then c else 0).sum = 0 := by
        apply List.sum_eq_zero
        intro x hx
        rw [List.mem_map] at hx
        obtain ⟨a, hat, rfl⟩ := hx
        rw [if_neg]
        intro hco
        have hab : a = b := huniq a (List.mem_cons_of_mem _ hat) hco.symm
        subst hab
        exact (List.nodup_cons.mp hnd).1 hat
      rw [hz, add_zero]
    · have hmt : σ ∈ t := by
        cases List.mem_cons.mp hm with
        | inl h => exact absurd h.symm hb
        | inr h => exact h
      have hneq : ¬ σ.toLower = b.toLower := by
        intro hco
        exact hb (huniq b (List.mem_cons_self b t) hco.symm)
      rw [if_neg hneq, zero_add]
      exact ih (List.nodup_cons.mp hnd).2 hmt
        (fun a hat hl => huniq a (List.mem_cons_of_mem _ hat) hl)

/-- Exchange a double list sum. -/
theorem sum_swap_list (f : String → Transaction → Rat) :
    ∀ (A : List String) (B : List Transaction),
    (A.map fun a => (B.map fun b => f a b).sum).sum =
      (B.map fun b => (A.map fun a => f a b).sum).sum := by
  intro A
  induction A with
  | nil =>
    intro B
    symm
    apply List.sum_eq_zero
    intro x hx
    rw [List.mem_map] at hx
    obtain ⟨b, _, rfl⟩ := hx
    simp
  | cons a t ih =>
    intro B
    rw [List.map_cons, List.sum_cons, ih, ← List.sum_map_add]
    apply congrArg
    apply List.map_congr_left
    intro b _
    rw [List.map_cons, List.sum_cons]

/-- One well-formed transaction's contributions over all touched addresses
cancel exactly: the full amount leaves the sender's (unique, up to case)
address entry and reaches the recipient's. -/
theorem contrib_sum_zero (c : List Block)
    (hinj : ∀ a ∈ touchedAddresses c, ∀ b ∈ touchedAddresses c, a.toLower = b.toLower → a = b)
    (tx : Transaction) (htx : tx ∈ chainTxs c)
    (hfield : tx.sender ≠ none ∧ tx.sender ≠ some "" ∧
      tx.recipient ≠ none ∧ tx.recipient ≠ some "") :
    ((touchedAddresses c).map fun a => contrib a.toLower tx).sum = 0 := by
  obtain ⟨hsn, hse, hrn, hre⟩ := hfield
  cases hs : tx.sender with
  | none => exact absurd hs hsn
  | some s =>
  cases hr : tx.recipient with
  | none => exact absurd hr hrn
  | some r =>
  have hsm : s ∈ touchedAddresses c := sender_mem_touched c tx htx s hs
  have hrm : r ∈ touchedAddresses c := recipient_mem_touched c tx htx r hr
  have hcon : ∀ a ∈ touchedAddresses c, contrib a.toLower tx =
      (if s.toLower = a.toLower then -(tx.amount.parsed.getD 0) else 0) +
        (if r.toLower = a.toLower then tx.amount.parsed.getD 0 else 0) := by
    intro a _
    unfold contrib
    rw [hs, hr]
    rfl
  rw [List.map_congr_left hcon, List.sum_map_add]
  rw [sum_ite_unique (-(tx.amount.parsed.getD 0)) s (touchedAddresses c)
      (List.nodup_dedup _) hsm (fun a hat hl => hinj a hat s hsm hl)]
  rw [sum_ite_unique (tx.amount.parsed.getD 0) r (touchedAddresses c)
      (List.nodup_dedup _) hrm (fun a hat hl => hinj a hat r hrm hl)]
  ring

/-- C8 (amended): for every ledger state whose chain transactions all carry
present, nonempty sender and recipient strings, and whose touched addresses
are pairwise distinct case-insensitively, the sum of `get_balance` over all
addresses appearing as sender or recipient in the chain — the reserved
`"system"` sender among them — equals 0: every transfer nets to zero and
the mining reward is debited from the `"system"` entry rather than
injected. -/
theorem c8_zero_sum (bc : Blockchain)
    (hfields : ∀ tx ∈ chainTxs bc.chain,
      tx.sender ≠ none ∧ tx.sender ≠ some "" ∧ tx.recipient ≠ none ∧ tx.recipient ≠ some "")
    (hinj : ∀ a ∈ touchedAddresses bc.chain, ∀ b ∈ touchedAddresses bc.chain,
      a.toLower = b.toLower → a = b) :
    touchedSum bc = 0 := by
  unfold touchedSum
  have hne : ∀ a ∈ touchedAddresses bc.chain, a ≠ "" := by
    apply touched_ne_empty
    intro tx htx
    exact ⟨(hfields tx htx).2.1, (hfields tx htx).2.2.2⟩
  rw [List.map_congr_left (fun a ha => get_balance_sum bc a (hne a ha))]
  rw [sum_swap_list (fun a tx => contrib a.toLower tx)]
  apply List.sum_eq_zero
  intro x hx
  rw [List.mem_map] at hx
  obtain ⟨tx, htx, rfl⟩ := hx
  exact contrib_sum_zero bc.chain hinj tx htx (hfields tx htx)

/-- C8 counterexample: a concrete reachable state — genesis plus one mined
block holding only the reward transaction — in which the sum of balances
over all touched addresses (`"system"` and the miner) is 0, not
`(mined blocks) * miningReward`: the reward credit to the miner is exactly
cancelled by the debit `get_balance` books against `"system"`. -/
theorem c8_cex_touched_sum :
    Reachable sha256hex noECDSA minedState ∧
    touchedSum minedState ≠
      ((minedState.chain.length - 1 : Nat) : Rat) * minedState.mining_reward := by
  constructor
  · exact Reachable.mine bc0 "m" ts1 0 minedBlk minedState (Reachable.init ts0) minedPair_eq
  · with_unfolding_all decide

/-- C8 witness: the amended zero-sum statement at the concrete mined state. -/
theorem c8_zero_sum_witness : touchedSum minedState = 0 :=
  c8_zero_sum minedState (by with_unfolding_all decide) (by with_unfolding_all decide)

end MyCoin
